import Mathlib

/-!
# Verification of the pyGameboy2 chain-votes → emulator pipeline

Shallow embedding of the three pipeline variants:
* `chainplays.py`        — windowed majority vote (listener → tally → aggregator → queue → applicator)
* `chainplaysChaos.py`   — pass-through (listener → queue → applicator)
* `chainplaysTESTING.py` — minimal variant whose applicator checks the emulator's
                           termination signal on every tick

The tally (`collections.Counter`) is modelled as an association list in key
insertion order, which is exactly the iteration order `Counter.most_common`
resolves ties by.  The action queue is a list (FIFO: put = append at the end).
The emulator is modelled by the trace of operations performed on it
(`press`/`release`/`tick`), with an oracle giving each `tick()`'s return value.
-/

set_option maxRecDepth 4000

namespace ChainPlays

/-- `CMD_INDEX_TO_BUTTON` of all three variants (the dict is textually identical
in `chainplays.py`, `chainplaysChaos.py` and `chainplaysTESTING.py`); `.get`
returns `None` for keys outside the dict. -/
def CMD_INDEX_TO_BUTTON (cmd : Int) : Option String :=
  if cmd = 0 then some "up"
  else if cmd = 1 then some "down"
  else if cmd = 2 then some "left"
  else if cmd = 3 then some "right"
  else if cmd = 4 then some "a"
  else if cmd = 5 then some "b"
  else if cmd = 6 then some "start"
  else if cmd = 7 then some "select"
  else none

/-- The shared `tally` Counter: association list from command index to count,
in key insertion order (Python dicts preserve insertion order). -/
abbrev Tally := List (Int × Nat)

/-- `tally[cmd] += 1`: bump an existing key in place, or append a new key at
the end (Python dict insertion order). -/
def tallyIncr (t : Tally) (cmd : Int) : Tally :=
  match t with
  | [] => [(cmd, 1)]
  | (k, n) :: rest => if k = cmd then (k, n + 1) :: rest else (k, n) :: tallyIncr rest cmd

/-- `tally.most_common(1)[0]` on a nonempty Counter: the first-encountered
entry of maximal count (`heapq.nlargest(1, items, key=count)` replaces the
running best only on a strictly larger count, so ties keep the earlier key). -/
def mostCommon1 : Tally → Option (Int × Nat)
  | [] => none
  | (k, n) :: rest =>
    match mostCommon1 rest with
    | none => some (k, n)
    | some (k2, n2) => if n2 > n then some (k2, n2) else some (k, n)

/-- `mostCommon1` with a junk default, used only under a nonemptiness guard
(matching `most_common(1)[0]`, which would raise on an empty Counter but is
guarded by `if not tally: continue`). -/
def mostCommonD (t : Tally) : Int × Nat :=
  (mostCommon1 t).getD (0, 0)

/-- State shared between the windowed aggregator and the action queue. -/
structure AggState where
  tally : Tally
  queue : List String
  deriving DecidableEq, Repr

/-- One iteration of `vote_aggregator`'s loop body after the sleep
(`chainplays.py` lines 56–65): if the tally is empty do nothing, else take the
most common index, clear the whole tally, map the index to a button, and
enqueue the button only when the mapping hits. -/
def aggregatorTick (s : AggState) : AggState :=
  if s.tally = [] then s
  else
    let cmdIdx := (mostCommonD s.tally).1
    match CMD_INDEX_TO_BUTTON cmdIdx with
    | none => { tally := [], queue := s.queue }
    | some btn => { tally := [], queue := s.queue ++ [btn] }

/-! ## Windowed listener (`chainplays.py` `chain_listener`) -/

/-- State owned by the windowed `chain_listener`: the poll cursor `last_block`
and the shared tally it increments. -/
structure ListenerState where
  lastBlock : Nat
  tally : Tally
  deriving DecidableEq, Repr

/-- The decoded batch of one `get_logs` call: each log either decodes to a
command index (`some cmd`) or raises in `get_event_data` (`none`). -/
abbrev LogBatch := List (Option Int)

/-- The `for log in logs` body of `chain_listener`: decode each log in order
and increment the tally; a decode exception propagates out of the loop, so
processing stops at the first bad log (`false`) with the increments made so
far kept. -/
def applyLogs : LogBatch → Tally → Tally × Bool
  | [], t => (t, true)
  | none :: _, t => (t, false)
  | some cmd :: rest, t => applyLogs rest (tallyIncr t cmd)

/-- One cycle of `chain_listener`'s `while True` body (`chainplays.py`
lines 71–93).  `latest` is `w3.eth.block_number`; `fetch` is the outcome of
`get_logs` (`none` = the RPC call raised).  The `except` clause leaves
`last_block` unchanged; `last_block = latest + 1` runs only when every log in
the batch decoded. -/
def listenerCycle (s : ListenerState) (latest : Nat) (fetch : Option LogBatch) : ListenerState :=
  if s.lastBlock ≤ latest then
    match fetch with
    | none => s
    | some logs =>
      match applyLogs logs s.tally with
      | (t, true) => { lastBlock := latest + 1, tally := t }
      | (t, false) => { lastBlock := s.lastBlock, tally := t }
  else s

/-- The block range `[fromBlock, toBlock]` a cycle asks `get_logs` for, when
it fetches at all (`fromBlock = last_block`, `toBlock = latest`). -/
def cycleRange (s : ListenerState) (latest : Nat) : Option (Nat × Nat) :=
  if s.lastBlock ≤ latest then some (s.lastBlock, latest) else none

/-! ## Chaos listener (`chainplaysChaos.py` `chain_listener`, lines 64–71) -/

/-- The `for log in logs` body of the chaos listener: decode, map, and enqueue
the button immediately when the mapping hits; a decode exception stops the
batch (`false`) with earlier enqueues kept. -/
def chaosApplyLogs : LogBatch → List String → List String × Bool
  | [], q => (q, true)
  | none :: _, q => (q, false)
  | some cmd :: rest, q =>
    match CMD_INDEX_TO_BUTTON cmd with
    | some btn => chaosApplyLogs rest (q ++ [btn])
    | none => chaosApplyLogs rest q

/-! ## Applicator / emulator model

The emulator is observed through the trace of operations the applicator
performs on it.  `tick`'s return value comes from an `oracle : Nat → Bool`
indexed by the number of ticks performed so far; in PyBoy, `tick()` returns
`False` when the session should terminate (window closed).  The unbounded
`while True` loops are run with explicit fuel; the Bool paired with a run is
`false` when the Python function executed a `return` (termination signal
observed) and `true` when fuel ran out with the loop still live. -/

/-- One observable operation on the emulator. -/
inductive EmuEvent where
  | press (btn : String)
  | release (btn : String)
  | tick
  deriving DecidableEq, Repr

/-- A run of the applicator: trace of emulator operations so far, and the
number of ticks performed (the index of the next tick in the oracle). -/
structure EmuRun where
  trace : List EmuEvent
  ticks : Nat
  deriving DecidableEq, Repr

/-- `pyboy.tick()`: perform one emulator step and read its return value. -/
def doTick (oracle : Nat → Bool) (r : EmuRun) : EmuRun × Bool :=
  ({ trace := r.trace ++ [EmuEvent.tick], ticks := r.ticks + 1 }, oracle r.ticks)

/-- `pyboy.tick()` with the return value discarded, as the windowed and chaos
variants do. -/
def doTickI (oracle : Nat → Bool) (r : EmuRun) : EmuRun :=
  (doTick oracle r).1

/-- `for _ in range(n): pyboy.tick()` with results discarded. -/
def doTicksI (oracle : Nat → Bool) : Nat → EmuRun → EmuRun
  | 0, r => r
  | n + 1, r => doTicksI oracle n (doTickI oracle r)

/-- `pyboy.button(btn, True)`. -/
def pressEv (r : EmuRun) (btn : String) : EmuRun :=
  { r with trace := r.trace ++ [EmuEvent.press btn] }

/-- `pyboy.button(btn, False)`. -/
def releaseEv (r : EmuRun) (btn : String) : EmuRun :=
  { r with trace := r.trace ++ [EmuEvent.release btn] }

/-- The windowed variant's main emulation loop (`chainplays.py` lines
135–154): pop an action if present, hold the button 6 ticks, release it,
2 more ticks; on an empty queue, one idle tick.  `tick()`'s return value is
never inspected. -/
def windowedLoop (oracle : Nat → Bool) : Nat → List String → EmuRun → EmuRun
  | 0, _, r => r
  | fuel + 1, btn :: rest, r =>
    let r1 := pressEv r btn
    let r2 := doTicksI oracle 6 r1
    let r3 := releaseEv r2 btn
    let r4 := doTicksI oracle 2 r3
    windowedLoop oracle fuel rest r4
  | fuel + 1, [], r => windowedLoop oracle fuel [] (doTickI oracle r)

/-- The windowed variant's applicator: 240 warm-up ticks (results discarded,
`chainplays.py` lines 130–131), then the main loop. -/
def windowedMain (oracle : Nat → Bool) (fuel : Nat) (q : List String) : EmuRun :=
  windowedLoop oracle fuel q (doTicksI oracle 240 { trace := [], ticks := 0 })

/-- The chaos variant's main emulation loop (`chainplaysChaos.py` lines
115–126): pop an action if present, press, one tick, release — no tick
between the release and the next iteration; on an empty queue, one idle tick.
`tick()`'s return value is never inspected. -/
def chaosLoop (oracle : Nat → Bool) : Nat → List String → EmuRun → EmuRun
  | 0, _, r => r
  | fuel + 1, btn :: rest, r =>
    let r1 := pressEv r btn
    let r2 := doTickI oracle r1
    let r3 := releaseEv r2 btn
    chaosLoop oracle fuel rest r3
  | fuel + 1, [], r => chaosLoop oracle fuel [] (doTickI oracle r)

/-- The chaos variant's applicator: 240 warm-up ticks (results discarded,
`chainplaysChaos.py` lines 112–113), then the main loop. -/
def chaosMain (oracle : Nat → Bool) (fuel : Nat) (q : List String) : EmuRun :=
  chaosLoop oracle fuel q (doTicksI oracle 240 { trace := [], ticks := 0 })

/-- The minimal variant's warm-up (`chainplaysTESTING.py` lines 109–111):
`n` ticks, returning early (`false`) as soon as one returns `False`.  A tick
is always performed before its result is inspected, and the result of the
tick performed on run `r` is `oracle r.ticks`. -/
def testingWarmup (oracle : Nat → Bool) : Nat → EmuRun → EmuRun × Bool
  | 0, r => (r, true)
  | n + 1, r =>
    if oracle r.ticks then testingWarmup oracle n (doTickI oracle r)
    else (doTickI oracle r, false)

/-- The minimal variant's main loop (`chainplaysTESTING.py` lines 114–126):
press, one checked press frame, release, one checked release frame; idle is
one checked tick.  Every `tick()` returning `False` causes `return`
(flag `false`); `true` means fuel ran out with the loop still live. -/
def testingLoop (oracle : Nat → Bool) : Nat → List String → EmuRun → EmuRun × Bool
  | 0, _, r => (r, true)
  | fuel + 1, btn :: rest, r =>
    let r1 := pressEv r btn
    let r2 := doTickI oracle r1
    if oracle r1.ticks then
      let r3 := releaseEv r2 btn
      let r4 := doTickI oracle r3
      if oracle r3.ticks then testingLoop oracle fuel rest r4
      else (r4, false)
    else (r2, false)
  | fuel + 1, [], r =>
    if oracle r.ticks then testingLoop oracle fuel [] (doTickI oracle r)
    else (doTickI oracle r, false)

/-- The minimal variant's applicator: checked 240-step warm-up, then the
checked main loop. -/
def testingMain (oracle : Nat → Bool) (fuel : Nat) (q : List String) : EmuRun × Bool :=
  let w := testingWarmup oracle 240 { trace := [], ticks := 0 }
  if w.2 then testingLoop oracle fuel q w.1 else (w.1, false)

/-- Every tick performed in the run returned `true` (no termination signal yet). -/
def ticksOK (oracle : Nat → Bool) (r : EmuRun) : Prop :=
  ∀ k, k < r.ticks → oracle k = true

/-- Every tick except possibly the final one returned `true`: once a tick
signals termination, no further tick is performed. -/
def ticksOKButLast (oracle : Nat → Bool) (r : EmuRun) : Prop :=
  ∀ k, k + 1 < r.ticks → oracle k = true

/-! ## Helper lemmas -/

theorem mostCommon1_eq_none_iff (t : Tally) : mostCommon1 t = none ↔ t = [] := by
  cases t with
  | nil => simp [mostCommon1]
  | cons p rest =>
    obtain ⟨k, n⟩ := p
    simp only [mostCommon1]
    cases mostCommon1 rest with
    | none => simp
    | some p2 =>
      obtain ⟨k2, n2⟩ := p2
      by_cases hn : n2 > n <;> simp [hn]

/-- `most_common(1)` returns a first-encountered maximum: the tally splits as
`l1 ++ (k, n) :: l2` where every earlier entry has a strictly smaller count
and every entry at all has count `≤ n`. -/
theorem mostCommon1_spec (t : Tally) (k : Int) (n : Nat)
    (h : mostCommon1 t = some (k, n)) :
    ∃ l1 l2, t = l1 ++ (k, n) :: l2 ∧ (∀ p ∈ l1, p.2 < n) ∧ ∀ p ∈ t, p.2 ≤ n := by
  induction t generalizing k n with
  | nil => simp [mostCommon1] at h
  | cons p rest ih =>
    obtain ⟨a, m⟩ := p
    simp only [mostCommon1] at h
    cases hrest : mostCommon1 rest with
    | none =>
      rw [hrest] at h
      simp only [Option.some.injEq, Prod.mk.injEq] at h
      obtain ⟨rfl, rfl⟩ := h
      have hnil : rest = [] := (mostCommon1_eq_none_iff rest).mp hrest
      subst hnil
      exact ⟨[], [], rfl, by simp, by simp⟩
    | some p2 =>
      obtain ⟨k2, n2⟩ := p2
      rw [hrest] at h
      have h : (if n2 > m then some (k2, n2) else some (a, m)) = some (k, n) := h
      by_cases hn : n2 > m
      · rw [if_pos hn] at h
        simp only [Option.some.injEq, Prod.mk.injEq] at h
        obtain ⟨rfl, rfl⟩ := h
        obtain ⟨l1, l2, heq, hlt, hle⟩ := ih _ _ hrest
        refine ⟨(a, m) :: l1, l2, by simp [heq], ?_, ?_⟩
        · intro p hp
          rcases List.mem_cons.mp hp with h1 | h1
          · subst h1; exact hn
          · exact hlt p h1
        · intro p hp
          rcases List.mem_cons.mp hp with h1 | h1
          · subst h1; exact Nat.le_of_lt hn
          · exact hle p h1
      · rw [if_neg hn] at h
        simp only [Option.some.injEq, Prod.mk.injEq] at h
        obtain ⟨rfl, rfl⟩ := h
        obtain ⟨l1, l2, heq, hlt, hle⟩ := ih _ _ hrest
        refine ⟨[], rest, rfl, by simp, ?_⟩
        intro p hp
        rcases List.mem_cons.mp hp with h1 | h1
        · subst h1; exact Nat.le_refl _
        · exact Nat.le_trans (hle p h1) (Nat.le_of_not_lt hn)

theorem applyLogs_map_some (cmds : List Int) (t : Tally) :
    applyLogs (cmds.map some) t = (cmds.foldl tallyIncr t, true) := by
  induction cmds generalizing t with
  | nil => simp [applyLogs]
  | cons c rest ih => simp [applyLogs, ih]

/-- A batch whose first undecodable log sits after the prefix `good`: the
prefix is applied to the tally, nothing after the bad log is, and the batch
reports failure. -/
theorem applyLogs_error (good : List Int) (rest : LogBatch) (t : Tally) :
    applyLogs (good.map some ++ none :: rest) t = (good.foldl tallyIncr t, false) := by
  induction good generalizing t with
  | nil => simp [applyLogs]
  | cons c g ih => simp [applyLogs, ih]

theorem chaosApplyLogs_map_some (cmds : List Int) (q : List String) :
    chaosApplyLogs (cmds.map some) q = (q ++ cmds.filterMap CMD_INDEX_TO_BUTTON, true) := by
  induction cmds generalizing q with
  | nil => simp [chaosApplyLogs]
  | cons c rest ih =>
    simp only [List.map_cons, chaosApplyLogs, List.filterMap_cons]
    cases h : CMD_INDEX_TO_BUTTON c with
    | none => simp [h, ih]
    | some btn => simp [h, ih]

/-- A cycle whose `get_logs` call raised changes nothing at all. -/
theorem listenerCycle_none (s : ListenerState) (latest : Nat) :
    listenerCycle s latest none = s := by
  unfold listenerCycle
  split <;> rfl

/-- Unfolding a fetching cycle (`cursor ≤ head`) to the batch outcome. -/
theorem listenerCycle_some (s : ListenerState) (latest : Nat) (logs : LogBatch)
    (h : s.lastBlock ≤ latest) :
    listenerCycle s latest (some logs) =
      match applyLogs logs s.tally with
      | (t, true) => { lastBlock := latest + 1, tally := t }
      | (t, false) => { lastBlock := s.lastBlock, tally := t } := by
  unfold listenerCycle
  rw [if_pos h]

@[simp]
theorem doTickI_ticks (oracle : Nat → Bool) (r : EmuRun) :
    (doTickI oracle r).ticks = r.ticks + 1 := rfl

@[simp]
theorem doTickI_trace (oracle : Nat → Bool) (r : EmuRun) :
    (doTickI oracle r).trace = r.trace ++ [EmuEvent.tick] := rfl

@[simp]
theorem pressEv_ticks (r : EmuRun) (btn : String) : (pressEv r btn).ticks = r.ticks := rfl

@[simp]
theorem pressEv_trace (r : EmuRun) (btn : String) :
    (pressEv r btn).trace = r.trace ++ [EmuEvent.press btn] := rfl

@[simp]
theorem releaseEv_ticks (r : EmuRun) (btn : String) : (releaseEv r btn).ticks = r.ticks := rfl

@[simp]
theorem releaseEv_trace (r : EmuRun) (btn : String) :
    (releaseEv r btn).trace = r.trace ++ [EmuEvent.release btn] := rfl

/-- Extending a run by one `true` tick preserves `ticksOK`. -/
theorem ticksOK_doTickI (oracle : Nat → Bool) (r : EmuRun) (h : ticksOK oracle r)
    (ho : oracle r.ticks = true) : ticksOK oracle (doTickI oracle r) := by
  intro k hk
  simp only [doTickI_ticks] at hk
  rcases Nat.lt_succ_iff_lt_or_eq.mp hk with h1 | h1
  · exact h k h1
  · subst h1; exact ho

/-- Invariant of the minimal variant's warm-up: starting from a run whose
ticks all returned `true`, the warm-up performs no tick after a termination
signal; if it returns early, the trace ends with the signalling tick. -/
theorem testingWarmup_inv (oracle : Nat → Bool) (n : Nat) (r : EmuRun)
    (h : ticksOK oracle r) :
    ticksOKButLast oracle (testingWarmup oracle n r).1 ∧
    ((testingWarmup oracle n r).2 = true → ticksOK oracle (testingWarmup oracle n r).1) ∧
    ((testingWarmup oracle n r).2 = false →
      (testingWarmup oracle n r).1.trace.getLast? = some EmuEvent.tick ∧
      oracle ((testingWarmup oracle n r).1.ticks - 1) = false) := by
  induction n generalizing r with
  | zero =>
    simp only [testingWarmup]
    exact ⟨fun k hk => h k (by omega), fun _ => h, fun hf => by simp at hf⟩
  | succ n ih =>
    cases ho : oracle r.ticks with
    | true =>
      simpa only [testingWarmup, ho, if_true] using ih _ (ticksOK_doTickI oracle r h ho)
    | false =>
      simp only [testingWarmup, ho, Bool.false_eq_true, if_false]
      refine ⟨fun k hk => h k (by simpa using hk), fun ht => by simp at ht, fun _ => ?_⟩
      constructor
      · simp
      · simpa using ho

/-- Invariant of the minimal variant's main loop: starting from a run whose
ticks all returned `true`, the loop performs no tick after a termination
signal; if it returns early, the trace ends with the signalling tick. -/
theorem testingLoop_inv (oracle : Nat → Bool) (fuel : Nat) (q : List String) (r : EmuRun)
    (h : ticksOK oracle r) :
    ticksOKButLast oracle (testingLoop oracle fuel q r).1 ∧
    ((testingLoop oracle fuel q r).2 = false →
      (testingLoop oracle fuel q r).1.trace.getLast? = some EmuEvent.tick ∧
      oracle ((testingLoop oracle fuel q r).1.ticks - 1) = false) := by
  induction fuel generalizing q r with
  | zero =>
    simp only [testingLoop]
    exact ⟨fun k hk => h k (by omega), fun hf => by simp at hf⟩
  | succ fuel ih =>
    cases q with
    | nil =>
      cases ho : oracle r.ticks with
      | true =>
        simpa only [testingLoop, ho, if_true] using ih _ _ (ticksOK_doTickI oracle r h ho)
      | false =>
        simp only [testingLoop, ho, Bool.false_eq_true, if_false]
        refine ⟨fun k hk => h k (by simpa using hk), fun _ => ?_⟩
        constructor
        · simp
        · simpa using ho
    | cons btn rest =>
      cases ho : oracle r.ticks with
      | true =>
        cases ho2 : oracle (r.ticks + 1) with
        | true =>
          have h2 : ticksOK oracle
              (doTickI oracle (releaseEv (doTickI oracle (pressEv r btn)) btn)) := by
            refine ticksOK_doTickI oracle _ ?_ (by simpa using ho2)
            intro k hk
            simp only [releaseEv_ticks, doTickI_ticks, pressEv_ticks] at hk
            rcases Nat.lt_succ_iff_lt_or_eq.mp hk with h1 | h1
            · exact h k h1
            · subst h1; exact ho
          simpa only [testingLoop, pressEv_ticks, releaseEv_ticks, doTickI_ticks, ho, ho2,
            if_true] using ih _ _ h2
        | false =>
          simp only [testingLoop, pressEv_ticks, releaseEv_ticks, doTickI_ticks, ho, ho2,
            Bool.false_eq_true, if_false, if_true]
          refine ⟨fun k hk => ?_, fun _ => ?_⟩
          · simp only [doTickI_ticks, releaseEv_ticks, pressEv_ticks] at hk
            rcases Nat.lt_succ_iff_lt_or_eq.mp (by omega : k < r.ticks + 1) with h1 | h1
            · exact h k h1
            · subst h1; exact ho
          · constructor
            · simp
            · simpa using ho2
      | false =>
        simp only [testingLoop, pressEv_ticks, ho, Bool.false_eq_true, if_false]
        refine ⟨fun k hk => h k (by simpa using hk), fun _ => ?_⟩
        constructor
        · simp
        · simpa using ho

/-! ## Claim theorems -/

/-- C1: at a windowed aggregation tick on a non-empty tally, the aggregator
emits at most one action (the queue is unchanged, or exactly one button is
appended), and an emitted button maps the `most_common` index, whose count is
`≥` every other count in the window's tally; ties go to the
first-encountered maximum, i.e. the first key in insertion order attaining
the maximal count (every entry before it counts strictly less). -/
theorem vote_aggregator_majority (s : AggState) (h : s.tally ≠ []) :
    (aggregatorTick s).queue = s.queue ∨
    ∃ k n b l1 l2,
      mostCommon1 s.tally = some (k, n) ∧
      CMD_INDEX_TO_BUTTON k = some b ∧
      (aggregatorTick s).queue = s.queue ++ [b] ∧
      s.tally = l1 ++ (k, n) :: l2 ∧
      (∀ p ∈ l1, p.2 < n) ∧
      (∀ p ∈ s.tally, p.2 ≤ n) := by
  cases hmc : mostCommon1 s.tally with
  | none => exact absurd ((mostCommon1_eq_none_iff s.tally).mp hmc) h
  | some p =>
    obtain ⟨k, n⟩ := p
    have hd : mostCommonD s.tally = (k, n) := by simp [mostCommonD, hmc]
    cases hb : CMD_INDEX_TO_BUTTON k with
    | none =>
      left
      simp [aggregatorTick, h, hd, hb]
    | some b =>
      right
      obtain ⟨l1, l2, heq, hlt, hle⟩ := mostCommon1_spec s.tally k n hmc
      exact ⟨k, n, b, l1, l2, rfl, hb, by simp [aggregatorTick, h, hd, hb], heq, hlt, hle⟩

/-- Witness for C1: a tie between index 1 (2 votes, first encountered) and
index 0 (2 votes); the tick enqueues the argmax's button. -/
theorem vote_aggregator_majority_witness :
    (aggregatorTick ⟨[(1, 2), (0, 2)], []⟩).queue = ([] : List String) ∨
    ∃ k n b l1 l2,
      mostCommon1 [(1, 2), (0, 2)] = some (k, n) ∧
      CMD_INDEX_TO_BUTTON k = some b ∧
      (aggregatorTick ⟨[(1, 2), (0, 2)], []⟩).queue = [] ++ [b] ∧
      ([(1, 2), (0, 2)] : Tally) = l1 ++ (k, n) :: l2 ∧
      (∀ p ∈ l1, p.2 < n) ∧
      (∀ p ∈ ([(1, 2), (0, 2)] : Tally), p.2 ≤ n) :=
  vote_aggregator_majority ⟨[(1, 2), (0, 2)], []⟩ (by decide)

/-- C2: the command-index-to-button mapping is total and stable on 0–7 with
the fixed button names; every integer outside 0–7 maps to `none`, and such a
vote yields no action: the chaos listener enqueues nothing for it, and a
windowed tick whose winner is unmapped enqueues nothing. -/
theorem cmd_mapping_total_stable :
    (CMD_INDEX_TO_BUTTON 0 = some "up" ∧ CMD_INDEX_TO_BUTTON 1 = some "down" ∧
     CMD_INDEX_TO_BUTTON 2 = some "left" ∧ CMD_INDEX_TO_BUTTON 3 = some "right" ∧
     CMD_INDEX_TO_BUTTON 4 = some "a" ∧ CMD_INDEX_TO_BUTTON 5 = some "b" ∧
     CMD_INDEX_TO_BUTTON 6 = some "start" ∧ CMD_INDEX_TO_BUTTON 7 = some "select") ∧
    (∀ cmd : Int, ¬(0 ≤ cmd ∧ cmd ≤ 7) → CMD_INDEX_TO_BUTTON cmd = none) ∧
    (∀ (q : List String) (rest : LogBatch) (cmd : Int), CMD_INDEX_TO_BUTTON cmd = none →
      chaosApplyLogs (some cmd :: rest) q = chaosApplyLogs rest q) ∧
    (∀ s : AggState, s.tally ≠ [] → CMD_INDEX_TO_BUTTON (mostCommonD s.tally).1 = none →
      (aggregatorTick s).queue = s.queue) := by
  refine ⟨by decide, ?_, ?_, ?_⟩
  · intro cmd hcmd
    unfold CMD_INDEX_TO_BUTTON
    split_ifs <;> first | rfl | omega
  · intro q rest cmd hnone
    simp [chaosApplyLogs, hnone]
  · intro s hne hnone
    simp [aggregatorTick, hne, hnone]

/-- Witness for C2: index 8 is unmapped, the chaos listener drops it, and a
window it wins enqueues nothing. -/
theorem cmd_mapping_total_stable_witness :
    CMD_INDEX_TO_BUTTON 8 = none ∧
    chaosApplyLogs [some 8] [] = chaosApplyLogs [] [] ∧
    (aggregatorTick ⟨[(8, 1)], ["up"]⟩).queue = ["up"] :=
  ⟨cmd_mapping_total_stable.2.1 8 (by decide),
   cmd_mapping_total_stable.2.2.1 [] [] 8 (cmd_mapping_total_stable.2.1 8 (by decide)),
   cmd_mapping_total_stable.2.2.2 ⟨[(8, 1)], ["up"]⟩ (by decide) (by decide)⟩

/-- C3: a cycle whose `get_logs` raised leaves the cursor unchanged and the
next cycle's fetch range still starts at the same unadvanced cursor; a cycle
whose batch decode failed also leaves the cursor unchanged; a successful
cycle with `head ≥ cursor` advances the cursor to `head + 1`; and in every
case the cursor is monotonically non-decreasing. -/
theorem chain_listener_cursor (s : ListenerState) (latest latest2 : Nat)
    (logs : LogBatch) (cmds : List Int) :
    ((listenerCycle s latest none).lastBlock = s.lastBlock) ∧
    ((applyLogs logs s.tally).2 = false →
      (listenerCycle s latest (some logs)).lastBlock = s.lastBlock) ∧
    (s.lastBlock ≤ latest →
      (listenerCycle s latest (some (cmds.map some))).lastBlock = latest + 1) ∧
    (∀ fetch, s.lastBlock ≤ (listenerCycle s latest fetch).lastBlock) ∧
    (cycleRange (listenerCycle s latest none) latest2 = cycleRange s latest2) := by
  refine ⟨by rw [listenerCycle_none], ?_, ?_, ?_, by rw [listenerCycle_none]⟩
  · intro hfail
    by_cases hle : s.lastBlock ≤ latest
    · rw [listenerCycle_some s latest logs hle]
      cases happ : applyLogs logs s.tally with
      | mk t flag =>
        rw [happ] at hfail
        simp only at hfail
        subst hfail
        rfl
    · unfold listenerCycle
      rw [if_neg hle]
  · intro hle
    rw [listenerCycle_some s latest (cmds.map some) hle, applyLogs_map_some]
  · intro fetch
    cases fetch with
    | none => rw [listenerCycle_none]
    | some logs2 =>
      by_cases hle : s.lastBlock ≤ latest
      · rw [listenerCycle_some s latest logs2 hle]
        cases happ : applyLogs logs2 s.tally with
        | mk t flag =>
          cases flag with
          | true => exact Nat.le_succ_of_le hle
          | false => exact Nat.le_refl _
      · unfold listenerCycle
        rw [if_neg hle]

/-- Witness for C3: cursor 3, head 5.  A batch whose only log fails to decode
leaves the cursor at 3; a fully decoded batch advances it to 6. -/
theorem chain_listener_cursor_witness :
    (listenerCycle ⟨3, []⟩ 5 (some [none])).lastBlock = 3 ∧
    (listenerCycle ⟨3, []⟩ 5 (some [some 0, some 1])).lastBlock = 6 :=
  ⟨(chain_listener_cursor ⟨3, []⟩ 5 7 [none] [0, 1]).2.1 (by decide),
   (chain_listener_cursor ⟨3, []⟩ 5 7 [none] [0, 1]).2.2.1 (by decide)⟩

/-- Counterexample to C4: a batch `[decodes to 0, undecodable]` at cursor 0,
head 5.  The cycle fails (cursor stays 0) yet the decoded vote is left in the
shared tally, retrying the identical cycle counts it a second time, and in
the batch `[undecodable, decodes to 0]` the good log after the error is never
processed — the decode error aborts the rest of the batch. -/
theorem batch_not_partially_applied_cex :
    ((listenerCycle ⟨0, []⟩ 5 (some [some 0, none])).lastBlock = 0 ∧
     (listenerCycle ⟨0, []⟩ 5 (some [some 0, none])).tally = [(0, 1)]) ∧
    (listenerCycle (listenerCycle ⟨0, []⟩ 5 (some [some 0, none])) 5
        (some [some 0, none])).tally = [(0, 2)] ∧
    (listenerCycle ⟨0, []⟩ 5 (some [none, some 0])).tally = [] := by
  refine ⟨⟨?_, ?_⟩, ?_, ?_⟩ <;> rfl

/-- C4 as amended: a decode error aborts the remainder of the batch; the logs
decoded before the error stay applied to the shared tally while the cursor is
not advanced, so a wholesale retry of the same cycle applies them a second
time (double-counting). -/
theorem listener_decode_error_double_count (s : ListenerState) (latest : Nat)
    (good : List Int) (rest : LogBatch) (h : s.lastBlock ≤ latest) :
    ((listenerCycle s latest (some (good.map some ++ none :: rest))).lastBlock
        = s.lastBlock) ∧
    ((listenerCycle s latest (some (good.map some ++ none :: rest))).tally
        = good.foldl tallyIncr s.tally) ∧
    ((listenerCycle (listenerCycle s latest (some (good.map some ++ none :: rest)))
        latest (some (good.map some ++ none :: rest))).tally
        = good.foldl tallyIncr (good.foldl tallyIncr s.tally)) := by
  have h1 : listenerCycle s latest (some (good.map some ++ none :: rest)) =
      { lastBlock := s.lastBlock, tally := good.foldl tallyIncr s.tally } := by
    rw [listenerCycle_some s latest _ h, applyLogs_error]
  have h2 : listenerCycle
      (⟨s.lastBlock, good.foldl tallyIncr s.tally⟩ : ListenerState) latest
      (some (good.map some ++ none :: rest)) =
      { lastBlock := s.lastBlock,
        tally := good.foldl tallyIncr (good.foldl tallyIncr s.tally) } := by
    rw [listenerCycle_some ⟨s.lastBlock, good.foldl tallyIncr s.tally⟩ latest _ h,
      applyLogs_error]
  refine ⟨by rw [h1], by rw [h1], by rw [h1, h2]⟩

/-- Witness for the amended C4: cursor 0, head 5, batch `[decodes to 0,
undecodable]`; the vote for index 0 is applied once by the failed cycle and
once more by the retry. -/
theorem listener_decode_error_double_count_witness :
    (listenerCycle ⟨0, []⟩ 5 (some ([0].map some ++ none :: []))).tally
        = [0].foldl tallyIncr [] ∧
    (listenerCycle (listenerCycle ⟨0, []⟩ 5 (some ([0].map some ++ none :: [])))
        5 (some ([0].map some ++ none :: []))).tally
        = [0].foldl tallyIncr ([0].foldl tallyIncr []) :=
  ⟨(listener_decode_error_double_count ⟨0, []⟩ 5 [0] [] (by decide)).2.1,
   (listener_decode_error_double_count ⟨0, []⟩ 5 [0] [] (by decide)).2.2⟩

/-- C6: the chaos listener turns each decoded vote whose index is mapped into
exactly one button action, appended to the queue in log order (the queue
grows by precisely `filterMap` of the mapping); in particular command
index 4 yields exactly the one action `"a"`, and the batch `[2, 2, 5]` yields
exactly `["left", "left", "b"]` in that order. -/
theorem chaos_pass_through (q : List String) (cmds : List Int) :
    (chaosApplyLogs (cmds.map some) q).1 = q ++ cmds.filterMap CMD_INDEX_TO_BUTTON ∧
    (chaosApplyLogs [some 2, some 2, some 5] []).1 = ["left", "left", "b"] ∧
    (chaosApplyLogs [some 4] []).1 = ["a"] :=
  ⟨by rw [chaosApplyLogs_map_some], by decide, by decide⟩

/-- Counterexample to C7: the windowed listener increments the shared tally
for any decoded command index — a log decoding to 9 puts the entry `(9, 1)`
into the tally even though 9 is outside the 8-entry mapping. -/
theorem tally_mapped_invariant_cex :
    (9, 1) ∈ (listenerCycle ⟨0, []⟩ 0 (some [some 9])).tally ∧
    CMD_INDEX_TO_BUTTON 9 = none := by
  refine ⟨?_, by decide⟩
  decide

/-- C7 as amended: the shared tally may hold entries for unmapped command
indices (the listener tallies every decoded index); unmapped indices are
dropped at the aggregator's mapping step instead, so every action that
reaches the queue comes from a mapped index. -/
theorem tally_unmapped_dropped_at_mapping :
    ((listenerCycle ⟨0, []⟩ 0 (some [some 9])).tally = [(9, 1)] ∧
      CMD_INDEX_TO_BUTTON 9 = none) ∧
    ∀ s : AggState, (aggregatorTick s).queue = s.queue ∨
      ∃ k b, CMD_INDEX_TO_BUTTON k = some b ∧ (aggregatorTick s).queue = s.queue ++ [b] := by
  refine ⟨⟨by decide, by decide⟩, ?_⟩
  intro s
  by_cases h : s.tally = []
  · left
    simp [aggregatorTick, h]
  · cases hb : CMD_INDEX_TO_BUTTON (mostCommonD s.tally).1 with
    | none =>
      left
      simp [aggregatorTick, h, hb]
    | some b =>
      right
      exact ⟨(mostCommonD s.tally).1, b, hb, by simp [aggregatorTick, h, hb]⟩

/-- C9: an aggregation tick on an empty tally is a no-op — the queue is
untouched and the tally stays empty. -/
theorem empty_tally_tick_noop (q : List String) :
    aggregatorTick { tally := [], queue := q } = { tally := [], queue := q } := by
  simp [aggregatorTick]

/-- C10: when the winning (most common) index of a window is unmapped, the
tick still clears the whole tally — every minority vote of the window
included — and enqueues nothing. -/
theorem unmapped_winner_discards_window (s : AggState) (h1 : s.tally ≠ [])
    (h2 : CMD_INDEX_TO_BUTTON (mostCommonD s.tally).1 = none) :
    aggregatorTick s = { tally := [], queue := s.queue } := by
  simp [aggregatorTick, h1, h2]

/-- Witness for C10: unmapped index 9 wins with 2 votes over the mapped
minority index 0; the tick wipes the minority vote and enqueues nothing. -/
theorem unmapped_winner_discards_window_witness :
    (([(9, 2), (0, 1)] : Tally) ≠ [] ∧
      CMD_INDEX_TO_BUTTON (mostCommonD [(9, 2), (0, 1)]).1 = none) ∧
    aggregatorTick ⟨[(9, 2), (0, 1)], ["up"]⟩ = ⟨[], ["up"]⟩ :=
  ⟨⟨by decide, by decide⟩,
   unmapped_winner_discards_window ⟨[(9, 2), (0, 1)], ["up"]⟩ (by decide) (by decide)⟩

/-- Counterexample to C5: in the windowed and chaos variants the applicator
never inspects `tick()`'s return value.  With an emulator that signals
termination on the very first step (oracle constantly `false`), both variants
still perform all 240 warm-up ticks plus an idle tick — 241 emulator steps
after the signal instead of exiting. -/
theorem applicator_ignores_termination_cex :
    ((fun _ : Nat => false) 0 = false) ∧
    (windowedMain (fun _ => false) 1 []).ticks = 241 ∧
    (chaosMain (fun _ => false) 1 []).ticks = 241 := by
  refine ⟨rfl, ?_, ?_⟩ <;> rfl

/-- C5 as amended: in the minimal (TESTING) variant only, termination is
absorbing in every state, warm-up included — every tick but the last one
performed returned `true` (so no emulator step follows a termination signal),
and whenever the applicator returned, the trace ends with the signalling tick
(no button operation follows it) and that tick indeed signalled termination. -/
theorem testing_termination_absorbing (oracle : Nat → Bool) (fuel : Nat) (q : List String) :
    (∀ k, k + 1 < (testingMain oracle fuel q).1.ticks → oracle k = true) ∧
    ((testingMain oracle fuel q).2 = false →
      (testingMain oracle fuel q).1.trace.getLast? = some EmuEvent.tick ∧
      oracle ((testingMain oracle fuel q).1.ticks - 1) = false) := by
  have h0 : ticksOK oracle { trace := [], ticks := 0 } :=
    fun k hk => absurd hk (Nat.not_lt_zero k)
  obtain ⟨hw1, hw2, hw3⟩ := testingWarmup_inv oracle 240 { trace := [], ticks := 0 } h0
  simp only [testingMain]
  cases hw : (testingWarmup oracle 240 { trace := [], ticks := 0 }).2 with
  | true =>
    simp only [if_true]
    obtain ⟨hl1, hl2⟩ := testingLoop_inv oracle fuel q _ (hw2 hw)
    exact ⟨hl1, hl2⟩
  | false =>
    simp only [Bool.false_eq_true, if_false]
    exact ⟨fun k hk => hw1 k hk, fun _ => hw3 hw⟩

/-- Witness for the amended C5: an emulator that signals termination on its
second step makes the minimal applicator return during warm-up with the
signalling tick as the last emulator operation. -/
theorem testing_termination_absorbing_witness :
    ((fun k : Nat => k == 0) 0 = true) ∧
    (testingMain (fun k : Nat => k == 0) 5 ["a"]).1.trace.getLast? = some EmuEvent.tick ∧
    (fun k : Nat => k == 0)
      ((testingMain (fun k : Nat => k == 0) 5 ["a"]).1.ticks - 1) = false :=
  ⟨(testing_termination_absorbing (fun k : Nat => k == 0) 5 ["a"]).1 0 (by decide),
   (testing_termination_absorbing (fun k : Nat => k == 0) 5 ["a"]).2 (by decide)⟩

/-- C8 as amended, the per-action emulator interaction of each variant:
windowed holds the button for 6 steps and follows the release with 2 steps;
the minimal variant uses 1 press frame and 1 release frame; chaos holds for
1 step but performs no dedicated step after the release (the release only
registers on a later tick); with no action pending, every variant advances
the emulator exactly one idle step. -/
theorem applicator_button_timing (oracle : Nat → Bool) (b : String) :
    (windowedLoop oracle 1 [b] { trace := [], ticks := 0 }).trace =
      [EmuEvent.press b] ++ List.replicate 6 EmuEvent.tick ++
        [EmuEvent.release b] ++ List.replicate 2 EmuEvent.tick ∧
    (chaosLoop oracle 1 [b] { trace := [], ticks := 0 }).trace =
      [EmuEvent.press b, EmuEvent.tick, EmuEvent.release b] ∧
    (testingLoop (fun _ => true) 1 [b] { trace := [], ticks := 0 }).1.trace =
      [EmuEvent.press b, EmuEvent.tick, EmuEvent.release b, EmuEvent.tick] ∧
    (windowedLoop oracle 1 [] { trace := [], ticks := 0 }).trace = [EmuEvent.tick] ∧
    (chaosLoop oracle 1 [] { trace := [], ticks := 0 }).trace = [EmuEvent.tick] ∧
    (testingLoop (fun _ => true) 1 [] { trace := [], ticks := 0 }).1.trace = [EmuEvent.tick] :=
  ⟨rfl, rfl, rfl, rfl, rfl, rfl⟩

/-- Counterexample to C8: in chaos mode an action is applied as
press–tick–release with no released step; with two queued actions the second
press follows the first release immediately, so no "1 step released" exists
per action. -/
theorem chaos_release_step_cex :
    (chaosLoop (fun _ => true) 2 ["a", "b"] { trace := [], ticks := 0 }).trace =
      [EmuEvent.press "a", EmuEvent.tick, EmuEvent.release "a",
        EmuEvent.press "b", EmuEvent.tick, EmuEvent.release "b"] ∧
    (chaosLoop (fun _ => true) 2 ["a", "b"] { trace := [], ticks := 0 }).trace ≠
      [EmuEvent.press "a", EmuEvent.tick, EmuEvent.release "a", EmuEvent.tick,
        EmuEvent.press "b", EmuEvent.tick, EmuEvent.release "b", EmuEvent.tick] :=
  ⟨rfl, by decide⟩

end ChainPlays
